import Mathlib

/-!
Verification of the mention-extraction and concept-resolution logic of
`scripts/prepare_data/run.py` (arboEL data preparation).

The development is a shallow embedding: the Python functions
`prepare_dictionary_from_umls` and `_transform_pages` are translated into
executable Lean definitions (text is modelled as `List Char`, Python dicts as
association lists with insertion-order/overwrite semantics, fallible steps as
`Option`), and the specified properties are proved about those definitions.
-/

namespace ArboEL

/-- Whitespace test used to model Python's `str.strip()`. -/
def isWS (c : Char) : Bool := c.isWhitespace

/-- Model of Python's `str.strip()` on a list of characters: drop whitespace
from both ends. -/
def pyStrip (l : List Char) : List Char :=
  ((l.dropWhile isWS).reverse.dropWhile isWS).reverse

/-- Model of `" ".join(fragments)`. -/
def joinSpace (xs : List (List Char)) : List Char := List.intercalate [' '] xs

/-- Model of the Python slice `text[s:t]` (clamping, empty when `s ≥ t`). -/
def pySlice (l : List Char) (s t : Nat) : List Char := (l.take t).drop s

/-- Predicate: every character of the list is whitespace. -/
def wsOnly (l : List Char) : Prop := ∀ c ∈ l, isWS c

/-- One normalized concept reference of an entity (`entity["normalized"][i]`). -/
structure Normalized where
  db_id : String
deriving DecidableEq

/-- One annotated entity of a BigBio page (the fields `_transform_pages` reads). -/
structure Entity where
  text : List (List Char)
  offsets : List (Nat × Nat)
  type : String
  normalized : List Normalized
deriving DecidableEq

/-- One passage of a BigBio page; `text` is its ordered list of text fragments. -/
structure Passage where
  text : List (List Char)
deriving DecidableEq

/-- One BigBio page (document). -/
structure Page where
  document_id : String
  passages : List Passage
  entities : List Entity
deriving DecidableEq

/-- Entry of the nested UMLS info dictionary: `{"title": ..., "description": ...}`. -/
structure UmlsEntry where
  title : String
  description : String
deriving DecidableEq

/-- The inner dictionary `umls_info[group]`, modelled as an association list. -/
abbrev GroupMap := List (String × UmlsEntry)

/-- The nested dictionary `umls_info` (the `group_concept_map`). -/
abbrev UmlsInfo := List (String × GroupMap)

/-- One row of `semantic_info.parquet` as read by `_transform_pages`. -/
structure SemRow where
  category : String
  sem_code : String
  group : String
deriving DecidableEq

/-- A Python `dict[str, str]` modelled as an association list with one entry per
key, in insertion order. -/
abbrev StrDict := List (String × String)

/-- Dict insertion with Python semantics: overwrite the value in place when the
key exists, otherwise append at the end. -/
def dictInsert (d : StrDict) (k v : String) : StrDict :=
  if (List.lookup k d).isSome then d.map (fun p => if p.1 = k then (k, v) else p)
  else d ++ [(k, v)]

/-- Model of a dict comprehension `{row[a]: row[b] for row in rows}`. -/
def buildDict (rows : List (String × String)) : StrDict :=
  rows.foldl (fun d p => dictInsert d p.1 p.2) []

/-- The `cat_to_group` dict (run.py lines 78-81). -/
def catToGroupOf (sems : List SemRow) : StrDict :=
  buildDict (sems.map fun r => (r.category, r.group))

/-- The `sem_to_group` dict (run.py lines 82-85). -/
def semToGroupOf (sems : List SemRow) : StrDict :=
  buildDict (sems.map fun r => (r.sem_code, r.group))

/-- One application of the correction dict: `corrected_code[cui]` when present,
otherwise the id unchanged. -/
def applyCorrectionMap (m : StrDict) (cui : String) : String :=
  match List.lookup cui m with
  | some v => v
  | none => cui

/-- Lines 103-104: `if corrected_code and cui in corrected_code: cui = corrected_code[cui]`.
An empty dict is falsy in Python, but membership in an empty dict also fails,
so the two conditions collapse to a lookup. -/
def applyCorrection (corr : Option StrDict) (cui : String) : String :=
  match corr with
  | none => cui
  | some m => applyCorrectionMap m cui

/-- Line 102 plus the correction: the `db_id` of the first normalized reference,
corrected at most once; `none` when the entity has no normalized reference
(line 94 skip). -/
def entityCui (corr : Option StrDict) (e : Entity) : Option String :=
  match e.normalized with
  | [] => none
  | n :: _ => some (applyCorrection corr n.db_id)

/-- Group resolution (run.py lines 109-124). `cg` models
`cui_to_groups.get(cui, [])`. The final `if` mirrors line 123:
`if group not in groups and groups: group = groups[0]` (the `headD` default is
unreachable under the non-empty guard). -/
def resolveGroup (cat sem : StrDict) (cg : String → List String)
    (entityType cui : String) : String :=
  match cg cui with
  | [g] => g
  | groups =>
    let g :=
      if entityType ∈ cat.map Prod.snd then entityType
      else
        match List.lookup entityType cat with
        | some g => g
        | none =>
          match List.lookup entityType sem with
          | some g => g
          | none => "Unknown"
    if g ∉ groups ∧ groups ≠ [] then groups.headD g else g

/-- Line 150: `offsets[0][0] if offsets and offsets[0] else 0`. Offsets are
modelled as (start, stop) pairs, so the inner truthiness test on the pair is
always true. -/
def startIndex (offsets : List (Nat × Nat)) : Nat :=
  match offsets with
  | [] => 0
  | o :: _ => o.1

/-- Line 151: `offsets[-1][1] if offsets and offsets[-1] else 0`. -/
def endIndex (offsets : List (Nat × Nat)) : Nat :=
  match offsets.getLast? with
  | none => 0
  | some o => o.2

/-- The fields of a mention dict that do not depend on the sequential counter. -/
structure PreMention where
  mention : List Char
  context_left : List Char
  context_right : List Char
  group : String
  cui : String
  description : String
  title : String
deriving DecidableEq

/-- Output record of `_transform_pages` (lines 155-165). -/
structure MentionRecord where
  mention : List Char
  mention_id : String
  context_left : List Char
  context_right : List Char
  context_doc_id : String
  type : String
  label_id : String
  label : String
  label_title : String
deriving DecidableEq

/-- Body of the entity loop (lines 94-154); `none` models `continue` (a skip). -/
def processEntity (allText : List Char) (umls : UmlsInfo) (cat sem : StrDict)
    (cg : String → List String) (corr : Option StrDict) (e : Entity) :
    Option PreMention :=
  match entityCui corr e with
  | none => none
  | some cui =>
    let group := resolveGroup cat sem cg e.type cui
    if group = "Unknown" then none
    else
      match List.lookup group umls with
      | none => none
      | some gm =>
        match List.lookup cui gm with
        | none => none
        | some entry =>
          some { mention := pyStrip (joinSpace e.text),
                 context_left := pyStrip (allText.take (startIndex e.offsets)),
                 context_right := pyStrip (allText.drop (endIndex e.offsets)),
                 group := group,
                 cui := cui,
                 description := entry.description,
                 title := entry.title }

/-- Lines 155-166: assemble the final dict from the counter and the rest. -/
def mkMention (docId : String) (k : Nat) (p : PreMention) : MentionRecord :=
  { mention := p.mention,
    mention_id := docId ++ "." ++ toString k,
    context_left := p.context_left,
    context_right := p.context_right,
    context_doc_id := docId,
    type := p.group,
    label_id := p.cui,
    label := p.description,
    label_title := p.title }

/-- The entity loop (lines 93-167) with its counter `entity_id`: the counter
advances only when a record is emitted. -/
def transformEntitiesAux (allText : List Char) (docId : String) (umls : UmlsInfo)
    (cat sem : StrDict) (cg : String → List String) (corr : Option StrDict)
    (k : Nat) : List Entity → List MentionRecord
  | [] => []
  | e :: rest =>
    match processEntity allText umls cat sem cg corr e with
    | none => transformEntitiesAux allText docId umls cat sem cg corr k rest
    | some p => mkMention docId k p ::
        transformEntitiesAux allText docId umls cat sem cg corr (k + 1) rest

/-- Lines 89-91: `" ".join([passage["text"][0] for passage in page.get("passages", [])])`.
Only the first fragment of each passage enters the document text; `headD []`
models the subscript (the source would raise on an empty fragment list, which
the corpus shape rules out). -/
def allTextOf (page : Page) : List Char :=
  joinSpace (page.passages.map (fun p => p.text.headD []))

/-- One iteration of the page loop (lines 87-167). -/
def transformPage (umls : UmlsInfo) (cat sem : StrDict) (cg : String → List String)
    (corr : Option StrDict) (page : Page) : List MentionRecord :=
  transformEntitiesAux (allTextOf page) page.document_id umls cat sem cg corr 1
    page.entities

/-- The whole `_transform_pages` (lines 69-168). -/
def transformPages (umls : UmlsInfo) (sems : List SemRow) (cg : String → List String)
    (corr : Option StrDict) (pages : List Page) : List MentionRecord :=
  pages.flatMap (transformPage umls (catToGroupOf sems) (semToGroupOf sems) cg corr)

/-- One row of `all_disambiguated.parquet` (after the `SNOMED_code -> CUI`
rename); `entity` is the `Entity` (category label) column. -/
structure UmlsRow where
  cui : String
  title : String
  group : String
  entity : String
deriving DecidableEq

/-- Deduplication keeping the first occurrence of each element. This is one
admissible realization of `pl.col(...).unique()` inside the polars
aggregation — polars leaves the order of `unique` unspecified
(`maintain_order` is off) — used only to evaluate concrete instances; the
theorems about the build take the realization as a parameter. -/
def dedupFirst {α : Type} [DecidableEq α] (l : List α) : List α :=
  l.foldl (fun acc x => if x ∈ acc then acc else acc ++ [x]) []

/-- Deduplication in reversed order: another admissible realization of the
unspecified `unique()` order, used to witness that the order is not
determined by the code. -/
def dedupRev {α : Type} [DecidableEq α] (l : List α) : List α :=
  (dedupFirst l).reverse

/-- The grouping key of `group_by(["CUI", "Title", "GROUP"])`. -/
def tripleKey (r : UmlsRow) : String × String × String := (r.cui, r.title, r.group)

/-- Category labels of all rows with the given key, in row order. -/
def labelsOfTriple (rows : List UmlsRow) (k : String × String × String) :
    List String :=
  (rows.filter (fun r => tripleKey r = k)).map (fun r => r.entity)

/-- One aggregated row after `group_by(["CUI", "Title", "GROUP"]).agg(unique(Entity))`. -/
structure AggRow where
  cui : String
  title : String
  group : String
  ents : List String
deriving DecidableEq

/-- Lexicographic comparison of character lists. -/
def charListLt : List Char → List Char → Bool
  | [], [] => false
  | [], _ :: _ => true
  | _ :: _, [] => false
  | a :: as, b :: bs => if a < b then true else if b < a then false else charListLt as bs

/-- String comparison on the underlying character lists. -/
def strLtB (a b : String) : Bool := charListLt a.data b.data

/-- Sort key `(GROUP, CUI)` of `.sort("GROUP", "CUI")` (line 26). -/
def aggLe (a b : AggRow) : Bool :=
  strLtB a.group b.group || (a.group = b.group && !(strLtB b.cui a.cui))

/-- Stable insertion: an element is placed before the first element it is
`aggLe`-below-or-equal, so earlier rows stay first among equal keys. -/
def insSorted (a : AggRow) : List AggRow → List AggRow
  | [] => [a]
  | b :: bs => if aggLe a b then a :: b :: bs else b :: insSorted a bs

/-- Stable insertion sort by `(GROUP, CUI)`: one admissible realization of
`.sort("GROUP", "CUI")` (line 26), whose tie order for duplicate keys the code
leaves unspecified (`maintain_order` is off); the theorems use only that
sorting permutes the rows. -/
def sortAgg : List AggRow → List AggRow
  | [] => []
  | a :: rest => insSorted a (sortAgg rest)

/-- The description string (lines 28-35):
title, `" ( "`, group, `" : "`, the labels joined with `" ; "`, `" )"`. -/
def mkDescription (title group : String) (ents : List String) : String :=
  title ++ " ( " ++ group ++ " : " ++ String.intercalate " ; " ents ++ " )"

/-- One record of the flat dictionary artifact `{cui, title, description, type}`
(lines 56-64). -/
structure DictRecord where
  cui : String
  title : String
  description : String
  group : String
deriving DecidableEq

/-- Lines 23-36 and 56-64 of run.py, with the realizations of the pipeline's
unspecified orders made explicit: `uniqK` realizes the `group_by` key order,
`uniq` the order of `unique()` on each label list, and `srt` the row order of
`.sort("GROUP", "CUI")` — polars leaves all three orders unspecified
(`maintain_order` is off throughout). The pipeline aggregates, sorts, builds
each description, and emits the flat record list. -/
def prepareDictionaryWith
    (uniqK : List (String × String × String) → List (String × String × String))
    (uniq : List String → List String) (srt : List AggRow → List AggRow)
    (rows : List UmlsRow) : List DictRecord :=
  (srt ((uniqK (rows.map tripleKey)).map
      (fun k => ⟨k.1, k.2.1, k.2.2, uniq (labelsOfTriple rows k)⟩))).map
    (fun a => ⟨a.cui, a.title, mkDescription a.title a.group a.ents, a.group⟩)

/-- Python dict assignment on the inner dictionary. -/
def gmInsert (gm : GroupMap) (c : String) (e : UmlsEntry) : GroupMap :=
  if (List.lookup c gm).isSome then gm.map (fun p => if p.1 = c then (c, e) else p)
  else gm ++ [(c, e)]

/-- Python dict assignment on the outer (nested) dictionary:
`records[group][cui] = entry` with `defaultdict` semantics. -/
def uiInsert (m : UmlsInfo) (g c : String) (e : UmlsEntry) : UmlsInfo :=
  if (List.lookup g m).isSome then
    m.map (fun p => if p.1 = g then (g, gmInsert p.2 c e) else p)
  else m ++ [(g, [(c, e)])]

/-- The nested `records[GROUP][CUI] = {title, description}` loop (lines 39-48)
building the `group_concept_map` / `umls_info_encoder` dictionary, again with
the unspecified pipeline orders taken as parameters. -/
def groupConceptMapWith
    (uniqK : List (String × String × String) → List (String × String × String))
    (uniq : List String → List String) (srt : List AggRow → List AggRow)
    (rows : List UmlsRow) : UmlsInfo :=
  (srt ((uniqK (rows.map tripleKey)).map
      (fun k => ⟨k.1, k.2.1, k.2.2, uniq (labelsOfTriple rows k)⟩))).foldl
    (fun m a =>
      uiInsert m a.group a.cui ⟨a.title, mkDescription a.title a.group a.ents⟩) []

/-- Spec wording of the type heuristic for the ambiguous case (spec 4.3 c
i-iv): raw type a valid group name, else a category code, else a
semantic-type code, else Unknown. -/
def specHeuristicGroup (groupNames : List String) (cat sem : StrDict)
    (t : String) : String :=
  if t ∈ groupNames then t
  else
    match List.lookup t cat with
    | some g => g
    | none =>
      match List.lookup t sem with
      | some g => g
      | none => "Unknown"

/-- Spec wording of the whole ambiguous-case resolution: the heuristic result,
overridden with the first candidate when it is not a member of a non-empty
candidate set. -/
def specResolveMulti (groupNames : List String) (cat sem : StrDict)
    (candidates : List String) (t : String) : String :=
  let g := specHeuristicGroup groupNames cat sem t
  if g ∉ candidates ∧ candidates ≠ [] then candidates.headD g else g

/-- Spec wording of the document text (spec 4.3 step 1): all passage text
fragments, joined by a single space. -/
def specFullText (page : Page) : List Char :=
  joinSpace (page.passages.flatMap Passage.text)

/-- Pre-substitution of the correction map in the source document: replace the
first normalized reference's id, leave everything else untouched. -/
def presubstituteEntity (m : StrDict) (e : Entity) : Entity :=
  match e.normalized with
  | [] => e
  | n :: rest => { e with normalized := ⟨applyCorrectionMap m n.db_id⟩ :: rest }

/-- Pre-substitution applied to a whole page. -/
def presubstitutePage (m : StrDict) (page : Page) : Page :=
  { page with entities := page.entities.map (presubstituteEntity m) }

/-! Concrete fixtures used to instantiate the theorems. -/

/-- Dictionary entry for the flu concept, as in the spec's worked scenario. -/
def entryFlu : UmlsEntry := ⟨"Flu", "Flu ( Disease : Viral ; Infectious )"⟩

/-- Dictionary entry for a second concept used by the fixtures. -/
def entryCold : UmlsEntry := ⟨"Cold", "Cold ( Disease : Viral )"⟩

/-- Inner map of the `Disease` group. -/
def diseaseGm : GroupMap := [("C1", entryFlu), ("C2", entryCold)]

/-- A small `umls_info` dictionary. -/
def umlsEx : UmlsInfo :=
  [("Disease", diseaseGm), ("Symptom", [("C1", ⟨"Flu", "Flu ( Symptom : Viral )"⟩)])]

/-- A small `cat_to_group` dict; `T047` maps to a group outside the candidate
set of `C1`, as in the spec's fallback scenario. -/
def catEx : StrDict := [("T047", "Procedure"), ("TDis", "Disease"), ("TSym", "Symptom")]

/-- A small `sem_to_group` dict. -/
def semEx : StrDict := [("S1", "Disease")]

/-- A small concept-group index: `C1` is ambiguous, `C2` has one candidate. -/
def cgEx : String → List String := fun c =>
  if c = "C1" then ["Disease", "Symptom"]
  else if c = "C2" then ["Disease"] else []

/-- An entity annotated with the unambiguous concept `C2`. -/
def eC2 : Entity :=
  { text := [['f', 'l', 'u']], offsets := [(2, 5)], type := "anything",
    normalized := [⟨"C2"⟩] }

/-- A one-passage page containing `eC2`. -/
def pageEx : Page :=
  { document_id := "doc", passages := [⟨[['a', ' ', 'f', 'l', 'u']]⟩],
    entities := [eC2] }

/-- A semantic table producing the category dict `[("TDis", "Disease")]`. -/
def semRowsEx : List SemRow := [⟨"TDis", "SDis", "Disease"⟩]

/-- The record `_transform_pages` emits for `pageEx`. -/
def recEx : MentionRecord :=
  { mention := ['f', 'l', 'u'], mention_id := "doc.1", context_left := ['a'],
    context_right := [], context_doc_id := "doc", type := "Disease",
    label_id := "C2", label := "Cold ( Disease : Viral )", label_title := "Cold" }

/-- The pre-mention `processEntity` produces for `eC2` inside `pageEx`. -/
def preEx : PreMention :=
  ⟨['f', 'l', 'u'], ['a'], [], "Disease", "C2", "Cold ( Disease : Viral )", "Cold"⟩

/-- A page whose single passage has two text fragments. -/
def pageTwoFragments : Page :=
  { document_id := "d", passages := [⟨[['a'], ['b']]⟩], entities := [] }

/-- An entity with an empty text-fragment list but a resolvable concept. -/
def eEmptyText : Entity :=
  { text := [], offsets := [], type := "x", normalized := [⟨"C2"⟩] }

/-- An entity with no normalized reference. -/
def eNoNorm : Entity :=
  { text := [['x']], offsets := [], type := "t", normalized := [] }

/-- A correction map with a chained pair of entries. -/
def mChain : StrDict := [("A", "B"), ("B", "C")]

/-- An entity whose concept id is a key of `mChain`. -/
def eA : Entity :=
  { text := [['a']], offsets := [(0, 1)], type := "t", normalized := [⟨"A"⟩] }

/-- The two concept rows of the spec's dictionary round-trip scenario. -/
def rowsFlu : List UmlsRow :=
  [⟨"C1", "Flu", "Disease", "Viral"⟩, ⟨"C1", "Flu", "Disease", "Infectious"⟩]

/-- The dictionary record built from `rowsFlu`. -/
def recFlu : DictRecord :=
  ⟨"C1", "Flu", "Flu ( Disease : Viral ; Infectious )", "Disease"⟩

/-! Helper lemmas. -/

theorem wsOnly_takeWhile (l : List Char) : wsOnly (l.takeWhile isWS) :=
  fun _ hc => List.mem_takeWhile_imp hc

/-- Python's `strip` only removes whitespace at the two ends: the original
string is whitespace, then the stripped string, then whitespace. -/
theorem pyStrip_decomp (l : List Char) :
    ∃ a b, wsOnly a ∧ wsOnly b ∧ l = a ++ pyStrip l ++ b := by
  refine ⟨l.takeWhile isWS, ((l.dropWhile isWS).reverse.takeWhile isWS).reverse,
    wsOnly_takeWhile l, ?_, ?_⟩
  · intro c hc
    exact List.mem_takeWhile_imp (List.mem_reverse.mp hc)
  · have h2 : l.dropWhile isWS =
        pyStrip l ++ ((l.dropWhile isWS).reverse.takeWhile isWS).reverse := by
      have h3 : (l.dropWhile isWS).reverse =
          (l.dropWhile isWS).reverse.takeWhile isWS ++
            (l.dropWhile isWS).reverse.dropWhile isWS :=
        (List.takeWhile_append_dropWhile isWS _).symm
      calc l.dropWhile isWS
          = (l.dropWhile isWS).reverse.reverse := (List.reverse_reverse _).symm
        _ = ((l.dropWhile isWS).reverse.takeWhile isWS ++
              (l.dropWhile isWS).reverse.dropWhile isWS).reverse := by rw [← h3]
        _ = pyStrip l ++ ((l.dropWhile isWS).reverse.takeWhile isWS).reverse := by
              rw [List.reverse_append]; rfl
    rw [List.append_assoc]
    conv_lhs => rw [← List.takeWhile_append_dropWhile isWS l]
    exact congrArg (l.takeWhile isWS ++ ·) h2

/-- A list splits as prefix, slice, and suffix when the slice is well-formed. -/
theorem pySlice_decomp (l : List Char) (s t : Nat) (h : s ≤ t) :
    l = l.take s ++ pySlice l s t ++ l.drop t := by
  have h1 : l.take s ++ pySlice l s t = l.take t := by
    have h0 : (l.take t).take s = l.take s := by
      rw [List.take_take, Nat.min_eq_left h]
    rw [pySlice, ← h0, List.take_append_drop]
  rw [h1, List.take_append_drop]

/-- Inversion for `processEntity`: an emitted record pins down the corrected
concept id, the resolved group, both dictionary lookups, and every field. -/
theorem processEntity_eq_some {allText : List Char} {umls : UmlsInfo}
    {cat sem : StrDict} {cg : String → List String} {corr : Option StrDict}
    {e : Entity} {pre : PreMention}
    (h : processEntity allText umls cat sem cg corr e = some pre) :
    ∃ cui gm entry,
      entityCui corr e = some cui ∧
      resolveGroup cat sem cg e.type cui ≠ "Unknown" ∧
      List.lookup (resolveGroup cat sem cg e.type cui) umls = some gm ∧
      List.lookup cui gm = some entry ∧
      pre = { mention := pyStrip (joinSpace e.text),
              context_left := pyStrip (allText.take (startIndex e.offsets)),
              context_right := pyStrip (allText.drop (endIndex e.offsets)),
              group := resolveGroup cat sem cg e.type cui,
              cui := cui,
              description := entry.description,
              title := entry.title } := by
  unfold processEntity at h
  split at h
  · exact absurd h (by simp)
  next cui heq =>
    dsimp only at h
    split at h
    next hunk => exact absurd h (by simp)
    next hunk =>
      split at h
      · exact absurd h (by simp)
      next gm hgm =>
        split at h
        · exact absurd h (by simp)
        next entry hent =>
          exact ⟨cui, gm, entry, heq, hunk, hgm, hent, (Option.some.inj h).symm⟩

/-- Every output record of the entity loop is produced by `processEntity` from
some entity of the list. -/
theorem mem_transformEntitiesAux {allText : List Char} {docId : String}
    {umls : UmlsInfo} {cat sem : StrDict} {cg : String → List String}
    {corr : Option StrDict} {k : Nat} {es : List Entity} {r : MentionRecord}
    (h : r ∈ transformEntitiesAux allText docId umls cat sem cg corr k es) :
    ∃ e ∈ es, ∃ j pre,
      processEntity allText umls cat sem cg corr e = some pre ∧
      r = mkMention docId j pre := by
  induction es generalizing k with
  | nil => cases h
  | cons e rest ih =>
    rw [transformEntitiesAux] at h
    split at h
    · obtain ⟨e', he', j, pre, hp, hr⟩ := ih h
      exact ⟨e', List.mem_cons_of_mem _ he', j, pre, hp, hr⟩
    next p hp =>
      rcases List.mem_cons.mp h with h | h
      · exact ⟨e, List.mem_cons_self _ _, k, p, hp, h⟩
      · obtain ⟨e', he', j, pre, hp', hr⟩ := ih h
        exact ⟨e', List.mem_cons_of_mem _ he', j, pre, hp', hr⟩

theorem mem_insSorted {x a : AggRow} {l : List AggRow} :
    x ∈ insSorted a l ↔ x = a ∨ x ∈ l := by
  induction l with
  | nil => simp [insSorted]
  | cons b bs ih =>
    rw [insSorted]
    split
    · simp [List.mem_cons]
    · simp only [List.mem_cons, ih]
      tauto

theorem mem_sortAgg {x : AggRow} {l : List AggRow} : x ∈ sortAgg l ↔ x ∈ l := by
  induction l with
  | nil => simp [sortAgg]
  | cons a rest ih =>
    rw [sortAgg, mem_insSorted]
    simp [ih]

theorem mem_dedupFirst_foldl {α : Type} [DecidableEq α] (l : List α)
    (acc : List α) (x : α) :
    x ∈ l.foldl (fun a y => if y ∈ a then a else a ++ [y]) acc ↔
      x ∈ acc ∨ x ∈ l := by
  induction l generalizing acc with
  | nil => simp
  | cons y ys ih =>
    rw [List.foldl_cons]
    by_cases hy : y ∈ acc
    · rw [if_pos hy, ih]
      constructor
      · rintro (h | h)
        · exact Or.inl h
        · exact Or.inr (List.mem_cons_of_mem _ h)
      · rintro (h | h)
        · exact Or.inl h
        · rcases List.mem_cons.mp h with rfl | h
          · exact Or.inl hy
          · exact Or.inr h
    · rw [if_neg hy, ih]
      simp only [List.mem_append, List.mem_singleton, List.mem_cons]
      tauto

theorem nodup_dedupFirst_foldl {α : Type} [DecidableEq α] (l : List α) :
    ∀ acc : List α, acc.Nodup →
      (l.foldl (fun a y => if y ∈ a then a else a ++ [y]) acc).Nodup := by
  induction l with
  | nil => exact fun acc h => h
  | cons y ys ih =>
    intro acc h
    rw [List.foldl_cons]
    by_cases hy : y ∈ acc
    · rw [if_pos hy]
      exact ih acc h
    · rw [if_neg hy]
      refine ih _ ?_
      rw [List.nodup_append]
      exact ⟨h, List.nodup_singleton y, by simpa [List.disjoint_singleton] using hy⟩

/-- First-occurrence deduplication is an admissible realization of `unique()`:
duplicate-free and membership-preserving. -/
theorem dedupFirst_isDedup {α : Type} [DecidableEq α] (l : List α) :
    (dedupFirst l).Nodup ∧ ∀ x, x ∈ dedupFirst l ↔ x ∈ l := by
  constructor
  · exact nodup_dedupFirst_foldl l [] List.nodup_nil
  · intro x
    rw [dedupFirst, mem_dedupFirst_foldl]
    simp

/-- Reversed deduplication is also an admissible realization of `unique()`. -/
theorem dedupRev_isDedup {α : Type} [DecidableEq α] (l : List α) :
    (dedupRev l).Nodup ∧ ∀ x, x ∈ dedupRev l ↔ x ∈ l := by
  obtain ⟨h1, h2⟩ := dedupFirst_isDedup l
  refine ⟨?_, fun x => ?_⟩
  · rw [dedupRev, List.nodup_reverse]
    exact h1
  · rw [dedupRev, List.mem_reverse, h2 x]

theorem entityCui_type_irrelevant (corr : Option StrDict) (e : Entity)
    (t : String) : entityCui corr { e with type := t } = entityCui corr e := rfl

theorem presubstituteEntity_type (m : StrDict) (e : Entity) :
    (presubstituteEntity m e).type = e.type := by
  rcases hn : e.normalized <;> simp [presubstituteEntity, hn]

theorem presubstituteEntity_text (m : StrDict) (e : Entity) :
    (presubstituteEntity m e).text = e.text := by
  rcases hn : e.normalized <;> simp [presubstituteEntity, hn]

theorem presubstituteEntity_offsets (m : StrDict) (e : Entity) :
    (presubstituteEntity m e).offsets = e.offsets := by
  rcases hn : e.normalized <;> simp [presubstituteEntity, hn]

theorem entityCui_presubstitute (m : StrDict) (e : Entity) :
    entityCui none (presubstituteEntity m e) = entityCui (some m) e := by
  rcases hn : e.normalized with _ | ⟨n, rest⟩ <;>
    simp [presubstituteEntity, entityCui, applyCorrection, hn]

theorem processEntity_presubstitute (allText : List Char) (umls : UmlsInfo)
    (cat sem : StrDict) (cg : String → List String) (m : StrDict) (e : Entity) :
    processEntity allText umls cat sem cg none (presubstituteEntity m e) =
    processEntity allText umls cat sem cg (some m) e := by
  rw [processEntity, processEntity, entityCui_presubstitute]
  cases entityCui (some m) e with
  | none => rfl
  | some cui =>
    rw [presubstituteEntity_type, presubstituteEntity_text,
      presubstituteEntity_offsets]

/-- The sequence of `mention_id` values of the entity loop: consecutive
counters from the starting value, one per emitted record. -/
theorem transformEntitiesAux_ids (allText : List Char) (docId : String)
    (umls : UmlsInfo) (cat sem : StrDict) (cg : String → List String)
    (corr : Option StrDict) (es : List Entity) (k : Nat) :
    (transformEntitiesAux allText docId umls cat sem cg corr k es).map
      (fun r => r.mention_id) =
    (List.range' k
        (transformEntitiesAux allText docId umls cat sem cg corr k es).length).map
      (fun i => docId ++ "." ++ toString i) := by
  induction es generalizing k with
  | nil => rfl
  | cons e rest ih =>
    rw [transformEntitiesAux]
    split
    · exact ih k
    next p hp =>
      rw [List.map_cons, List.length_cons, List.range'_succ, List.map_cons,
        ih (k + 1)]
      rfl

/-! Claim theorems. -/

/-- C1: for an entity whose (possibly corrected) concept id has exactly one
candidate group in the concept-group index, the resolved group — and hence the
emitted record's `type` field — is that single candidate, and the entity's raw
type field has no influence on the result (the type-based heuristics are
skipped entirely). -/
theorem c1_unique_candidate_group (allText : List Char) (umls : UmlsInfo)
    (cat sem : StrDict) (cg : String → List String) (corr : Option StrDict)
    (e : Entity) (c g : String)
    (hc : entityCui corr e = some c) (hg : cg c = [g]) :
    resolveGroup cat sem cg e.type c = g ∧
    (∀ pre, processEntity allText umls cat sem cg corr e = some pre →
      pre.group = g) ∧
    (∀ t, processEntity allText umls cat sem cg corr { e with type := t } =
      processEntity allText umls cat sem cg corr e) := by
  have hres : ∀ t', resolveGroup cat sem cg t' c = g := by
    intro t'
    simp [resolveGroup, hg]
  refine ⟨hres e.type, ?_, ?_⟩
  · intro pre hpre
    obtain ⟨cui, gm, entry, hcui, _, _, _, hpre'⟩ := processEntity_eq_some hpre
    rw [hc] at hcui
    cases Option.some.inj hcui
    rw [hpre']
    exact hres e.type
  · intro t
    simp only [processEntity, entityCui_type_irrelevant, hc, hres]

/-- Witness for C1 at the fixture data. -/
theorem c1_witness :
    entityCui none eC2 = some "C2" ∧ cgEx "C2" = ["Disease"] ∧
    resolveGroup catEx semEx cgEx eC2.type "C2" = "Disease" :=
  ⟨by decide, by decide,
    (c1_unique_candidate_group [] umlsEx catEx semEx cgEx none eC2 "C2" "Disease"
      (by decide) (by decide)).1⟩

/-- C2: for an entity whose concept id has zero or multiple candidate groups,
resolution follows the spec's fallback chain — raw type as a group name, then
as a category code, then as a semantic-type code, else `"Unknown"` — and the
result is overridden with the first candidate whenever it is not a member of a
non-empty candidate set. -/
theorem c2_ambiguous_resolution (cat sem : StrDict) (cg : String → List String)
    (t c : String) (h : (cg c).length ≠ 1) :
    resolveGroup cat sem cg t c =
    specResolveMulti (cat.map Prod.snd) cat sem (cg c) t := by
  rcases hg : cg c with _ | ⟨g1, _ | ⟨g2, rest⟩⟩
  · simp only [resolveGroup, specResolveMulti, specHeuristicGroup, hg]
  · rw [hg] at h
    simp at h
  · simp only [resolveGroup, specResolveMulti, specHeuristicGroup, hg]

/-- Witness for C2 at the spec's fallback scenario: the category map sends
`T047` outside the candidate set of `C1`, so the first candidate wins. -/
theorem c2_witness :
    (cgEx "C1").length ≠ 1 ∧
    resolveGroup catEx semEx cgEx "T047" "C1" =
      specResolveMulti (catEx.map Prod.snd) catEx semEx (cgEx "C1") "T047" ∧
    resolveGroup catEx semEx cgEx "T047" "C1" = "Disease" :=
  ⟨by decide, c2_ambiguous_resolution catEx semEx cgEx "T047" "C1" (by decide),
    by decide⟩

/-- C3 counterexample: the claim says the coordinate space is the concatenation
of ALL passage text fragments joined by a single space; on a passage with two
fragments the code uses only the first fragment, so the two texts differ. -/
theorem c3_counterexample :
    allTextOf pageTwoFragments ≠ specFullText pageTwoFragments := by decide

/-- C3 (amended): the full text is the concatenation of the FIRST text fragment
of each passage joined by a single space; and for every emitted mention the
trimmed windows `context_left` and `context_right`, together with the mention
region between the first offset's start and the last offset's end, reconstruct
the full text modulo whitespace trimmed at the boundaries. -/
theorem c3_contexts_reconstruct (page : Page) (umls : UmlsInfo)
    (cat sem : StrDict) (cg : String → List String) (corr : Option StrDict)
    (e : Entity) (pre : PreMention)
    (hpre : processEntity (allTextOf page) umls cat sem cg corr e = some pre)
    (hse : startIndex e.offsets ≤ endIndex e.offsets) :
    allTextOf page = joinSpace (page.passages.map (fun p => p.text.headD [])) ∧
    ∃ a b c d, wsOnly a ∧ wsOnly b ∧ wsOnly c ∧ wsOnly d ∧
      allTextOf page =
        a ++ pre.context_left ++ b ++
          pySlice (allTextOf page) (startIndex e.offsets) (endIndex e.offsets) ++
          c ++ pre.context_right ++ d := by
  refine ⟨rfl, ?_⟩
  obtain ⟨cui, gm, entry, _, _, _, _, hpre'⟩ := processEntity_eq_some hpre
  obtain ⟨a, b, ha, hb, hab⟩ :=
    pyStrip_decomp ((allTextOf page).take (startIndex e.offsets))
  obtain ⟨c, d, hc, hd, hcd⟩ :=
    pyStrip_decomp ((allTextOf page).drop (endIndex e.offsets))
  refine ⟨a, b, c, d, ha, hb, hc, hd, ?_⟩
  have hL := pySlice_decomp (allTextOf page) (startIndex e.offsets)
    (endIndex e.offsets) hse
  rw [hpre']
  dsimp only
  calc allTextOf page
      = (allTextOf page).take (startIndex e.offsets) ++
          pySlice (allTextOf page) (startIndex e.offsets) (endIndex e.offsets) ++
          (allTextOf page).drop (endIndex e.offsets) := hL
    _ = (a ++ pyStrip ((allTextOf page).take (startIndex e.offsets)) ++ b) ++
          pySlice (allTextOf page) (startIndex e.offsets) (endIndex e.offsets) ++
          (c ++ pyStrip ((allTextOf page).drop (endIndex e.offsets)) ++ d) := by
        rw [← hab, ← hcd]
    _ = a ++ pyStrip ((allTextOf page).take (startIndex e.offsets)) ++ b ++
          pySlice (allTextOf page) (startIndex e.offsets) (endIndex e.offsets) ++
          c ++ pyStrip ((allTextOf page).drop (endIndex e.offsets)) ++ d := by
        simp [List.append_assoc]

/-- Witness for the amended C3 at the fixture page. -/
theorem c3_witness :
    processEntity (allTextOf pageEx) umlsEx catEx semEx cgEx none eC2 =
      some preEx ∧
    startIndex eC2.offsets ≤ endIndex eC2.offsets ∧
    (allTextOf pageEx =
        joinSpace (pageEx.passages.map (fun p => p.text.headD [])) ∧
      ∃ a b c d, wsOnly a ∧ wsOnly b ∧ wsOnly c ∧ wsOnly d ∧
        allTextOf pageEx =
          a ++ preEx.context_left ++ b ++
            pySlice (allTextOf pageEx) (startIndex eC2.offsets)
              (endIndex eC2.offsets) ++
            c ++ preEx.context_right ++ d) :=
  ⟨by decide, by decide,
    c3_contexts_reconstruct pageEx umlsEx catEx semEx cgEx none eC2 preEx
      (by decide) (by decide)⟩

/-- The entity loop commutes with pre-substitution of the correction map. -/
theorem transformEntitiesAux_presubstitute (allText : List Char) (docId : String)
    (umls : UmlsInfo) (cat sem : StrDict) (cg : String → List String)
    (m : StrDict) (k : Nat) (es : List Entity) :
    transformEntitiesAux allText docId umls cat sem cg (some m) k es =
    transformEntitiesAux allText docId umls cat sem cg none k
      (es.map (presubstituteEntity m)) := by
  induction es generalizing k with
  | nil => rfl
  | cons e rest ih =>
    rw [List.map_cons, transformEntitiesAux, transformEntitiesAux,
      processEntity_presubstitute]
    cases processEntity allText umls cat sem cg (some m) e with
    | none => exact ih k
    | some p => rw [ih (k + 1)]

/-- C4: running extraction with the correction map equals substituting each
entity's first normalized concept id in the source documents and then running
extraction with no correction map. -/
theorem c4_overlay_commutes (umls : UmlsInfo) (sems : List SemRow)
    (cg : String → List String) (m : StrDict) (pages : List Page) :
    transformPages umls sems cg (some m) pages =
    transformPages umls sems cg none (pages.map (presubstitutePage m)) := by
  induction pages with
  | nil => rfl
  | cons page rest ih =>
    rw [List.map_cons, transformPages, transformPages, List.flatMap_cons,
      List.flatMap_cons]
    rw [transformPages, transformPages] at ih
    rw [ih]
    have hpage :
        transformPage umls (catToGroupOf sems) (semToGroupOf sems) cg (some m)
          page =
        transformPage umls (catToGroupOf sems) (semToGroupOf sems) cg none
          (presubstitutePage m page) := by
      rw [transformPage, transformPage]
      exact transformEntitiesAux_presubstitute _ _ _ _ _ _ _ _ _
    rw [hpage]

/-- C5: the emitted `mention_id` values of a document are exactly
`"{document_id}.{i}"` for `i = 1, 2, ...` in order — the sequential index
starts at 1, is strictly increasing and contiguous over the emitted records,
and skipped entities consume no index. -/
theorem c5_mention_ids (umls : UmlsInfo) (cat sem : StrDict)
    (cg : String → List String) (corr : Option StrDict) (page : Page) :
    (transformPage umls cat sem cg corr page).map (fun r => r.mention_id) =
    (List.range' 1 (transformPage umls cat sem cg corr page).length).map
      (fun i => page.document_id ++ "." ++ toString i) :=
  transformEntitiesAux_ids _ _ _ _ _ _ _ _ 1

/-- C6: an entity with zero normalized references emits no record, leaves the
sequential counter unchanged, and processing continues with the remaining
entities of the document. -/
theorem c6_skip_no_normalized (allText : List Char) (docId : String)
    (umls : UmlsInfo) (cat sem : StrDict) (cg : String → List String)
    (corr : Option StrDict) (k : Nat) (e : Entity) (rest : List Entity)
    (h : e.normalized = []) :
    transformEntitiesAux allText docId umls cat sem cg corr k (e :: rest) =
    transformEntitiesAux allText docId umls cat sem cg corr k rest := by
  have hcui : entityCui corr e = none := by simp [entityCui, h]
  have hp : processEntity allText umls cat sem cg corr e = none := by
    rw [processEntity, hcui]
  rw [transformEntitiesAux, hp]

/-- Witness for C6: skipping the reference-free entity leaves the counter at 5
and processing continues. -/
theorem c6_witness :
    eNoNorm.normalized = [] ∧
    transformEntitiesAux [] "doc" umlsEx catEx semEx cgEx none 5 [eNoNorm, eC2] =
      transformEntitiesAux [] "doc" umlsEx catEx semEx cgEx none 5 [eC2] :=
  ⟨by decide,
    c6_skip_no_normalized [] "doc" umlsEx catEx semEx cgEx none 5 eNoNorm [eC2]
      (by decide)⟩

/-- C7 counterexample: the code builds the label list with
`pl.col("Entity").unique()` and orders rows with `.sort(...)`, both with
`maintain_order` off, so their output orders are unspecified. On the spec's
own Flu rows, two admissible realizations of the `unique()` order — first
occurrence and its reverse (`dedupRev`, admissible by `dedupRev_isDedup`) —
give the descriptions `"Flu ( Disease : Viral ; Infectious )"` and
`"Flu ( Disease : Infectious ; Viral )"`: the first-encountered order the
claim asserts is not determined by the code, and two builds from the same
input rows need not be byte-identical. -/
theorem c7_counterexample :
    dedupFirst (labelsOfTriple rowsFlu ("C1", "Flu", "Disease")) =
      ["Viral", "Infectious"] ∧
    dedupRev (labelsOfTriple rowsFlu ("C1", "Flu", "Disease")) =
      ["Infectious", "Viral"] ∧
    (prepareDictionaryWith dedupFirst dedupFirst sortAgg rowsFlu).map
      (fun r => r.description) = ["Flu ( Disease : Viral ; Infectious )"] ∧
    (prepareDictionaryWith dedupFirst dedupRev sortAgg rowsFlu).map
      (fun r => r.description) = ["Flu ( Disease : Infectious ; Viral )"] ∧
    groupConceptMapWith dedupFirst dedupRev sortAgg rowsFlu ≠
      groupConceptMapWith dedupFirst dedupFirst sortAgg rowsFlu := by decide

/-- C7 (amended): for every admissible realization of the orders the code
leaves unspecified, the description of each built record is its title,
`" ( "`, its group, `" : "`, the distinct category labels of its
(concept_id, title, group) triple — each exactly once, in the order chosen by
the realization of `unique()` — joined by `" ; "`, and `" )"`; and the build
output, `group_concept_map` included, is a function of the input rows and
those realizations alone, so builds agreeing on the realizations have
byte-identical contents. -/
theorem c7_description_shape (rows : List UmlsRow)
    (uniqK : List (String × String × String) → List (String × String × String))
    (uniq : List String → List String) (srt : List AggRow → List AggRow)
    (hu : ∀ l, (uniq l).Nodup ∧ ∀ x, x ∈ uniq l ↔ x ∈ l)
    (hs : ∀ (l : List AggRow) (x : AggRow), x ∈ srt l ↔ x ∈ l) :
    (∀ r ∈ prepareDictionaryWith uniqK uniq srt rows,
      r.description = mkDescription r.title r.group
        (uniq (labelsOfTriple rows (r.cui, r.title, r.group))) ∧
      (uniq (labelsOfTriple rows (r.cui, r.title, r.group))).Nodup ∧
      (∀ x, x ∈ uniq (labelsOfTriple rows (r.cui, r.title, r.group)) ↔
        x ∈ labelsOfTriple rows (r.cui, r.title, r.group))) ∧
    (∀ uniqK2 uniq2 srt2,
      (∀ l, uniqK2 l = uniqK l) → (∀ l, uniq2 l = uniq l) →
      (∀ l, srt2 l = srt l) →
      prepareDictionaryWith uniqK2 uniq2 srt2 rows =
          prepareDictionaryWith uniqK uniq srt rows ∧
        groupConceptMapWith uniqK2 uniq2 srt2 rows =
          groupConceptMapWith uniqK uniq srt rows) := by
  constructor
  · intro r hr
    rw [prepareDictionaryWith] at hr
    obtain ⟨a, ha, hra⟩ := List.mem_map.mp hr
    rw [hs] at ha
    obtain ⟨k, hk, hak⟩ := List.mem_map.mp ha
    subst hak
    subst hra
    exact ⟨rfl, (hu (labelsOfTriple rows k)).1, (hu (labelsOfTriple rows k)).2⟩
  · intro uniqK2 uniq2 srt2 h1 h2 h3
    have e1 : uniqK2 = uniqK := funext h1
    have e2 : uniq2 = uniq := funext h2
    have e3 : srt2 = srt := funext h3
    rw [e1, e2, e3]
    exact ⟨rfl, rfl⟩

/-- Witness for the amended C7 at the spec's Flu scenario, instantiating the
realizations with first-occurrence deduplication and the stable sort. -/
theorem c7_witness :
    recFlu ∈ prepareDictionaryWith dedupFirst dedupFirst sortAgg rowsFlu ∧
    (recFlu.description = mkDescription recFlu.title recFlu.group
        (dedupFirst
          (labelsOfTriple rowsFlu (recFlu.cui, recFlu.title, recFlu.group))) ∧
      (dedupFirst
        (labelsOfTriple rowsFlu (recFlu.cui, recFlu.title, recFlu.group))).Nodup ∧
      (∀ x, x ∈ dedupFirst
          (labelsOfTriple rowsFlu (recFlu.cui, recFlu.title, recFlu.group)) ↔
        x ∈ labelsOfTriple rowsFlu (recFlu.cui, recFlu.title, recFlu.group))) :=
  ⟨by decide,
    (c7_description_shape rowsFlu dedupFirst dedupFirst sortAgg
      dedupFirst_isDedup (fun _ _ => mem_sortAgg)).1 recFlu (by decide)⟩

/-- C8: every emitted record's `type` is a key of the group-concept map, its
`label_id` is a key of the inner map under that group, and `label` and
`label_title` equal exactly the stored description and title, so the final
dictionary accesses never fail. -/
theorem c8_label_lookups (umls : UmlsInfo) (sems : List SemRow)
    (cg : String → List String) (corr : Option StrDict) (pages : List Page)
    (r : MentionRecord) (hr : r ∈ transformPages umls sems cg corr pages) :
    ∃ gm entry, List.lookup r.type umls = some gm ∧
      List.lookup r.label_id gm = some entry ∧
      r.label = entry.description ∧ r.label_title = entry.title := by
  rw [transformPages] at hr
  obtain ⟨page, hpage, hrp⟩ := List.mem_flatMap.mp hr
  rw [transformPage] at hrp
  obtain ⟨e, he, j, pre, hpe, hrm⟩ := mem_transformEntitiesAux hrp
  obtain ⟨cui, gm, entry, hcui, hunk, hgm, hent, hpre⟩ :=
    processEntity_eq_some hpe
  subst hrm
  subst hpre
  exact ⟨gm, entry, hgm, hent, rfl, rfl⟩

/-- Witness for C8 at the fixture page. -/
theorem c8_witness :
    recEx ∈ transformPages umlsEx semRowsEx cgEx none [pageEx] ∧
    ∃ gm entry, List.lookup recEx.type umlsEx = some gm ∧
      List.lookup recEx.label_id gm = some entry ∧
      recEx.label = entry.description ∧ recEx.label_title = entry.title :=
  ⟨by decide,
    c8_label_lookups umlsEx semRowsEx cgEx none [pageEx] recEx (by decide)⟩

/-- C9: the correction map is applied at most once and never chained — when the
lookup succeeds, the id used by all later resolution is exactly the mapped
value, even when that value is itself a key of the map. -/
theorem c9_correction_once (allText : List Char) (umls : UmlsInfo)
    (cat sem : StrDict) (cg : String → List String) (m : StrDict) (e : Entity)
    (n : Normalized) (rest : List Normalized) (v : String)
    (hn : e.normalized = n :: rest) (hv : List.lookup n.db_id m = some v) :
    entityCui (some m) e = some v ∧
    (∀ pre, processEntity allText umls cat sem cg (some m) e = some pre →
      pre.cui = v ∧ pre.group = resolveGroup cat sem cg e.type v) := by
  have hc : entityCui (some m) e = some v := by
    simp [entityCui, hn, applyCorrection, applyCorrectionMap, hv]
  refine ⟨hc, ?_⟩
  intro pre hpre
  obtain ⟨cui, gm, entry, hcui, _, _, _, hpre'⟩ := processEntity_eq_some hpre
  rw [hc] at hcui
  cases Option.some.inj hcui
  rw [hpre']
  exact ⟨rfl, rfl⟩

/-- Witness for C9 on a chained map: `A` maps to `B` and `B` maps to `C`, yet
the id used for entity `eA` is `B`, not `C`. -/
theorem c9_witness :
    eA.normalized = [⟨"A"⟩] ∧ List.lookup "A" mChain = some "B" ∧
    entityCui (some mChain) eA = some "B" :=
  ⟨by decide, by decide,
    (c9_correction_once [] umlsEx catEx semEx cgEx mChain eA ⟨"A"⟩ [] "B"
      (by decide) (by decide)).1⟩

/-- C10: an entity with an empty text-fragment list but a valid, resolvable
normalized concept reference is not skipped — a record is emitted with
`mention` equal to the empty string, and it consumes a sequential index like
any other emitted mention. -/
theorem c10_empty_text_emitted (allText : List Char) (umls : UmlsInfo)
    (cat sem : StrDict) (cg : String → List String) (corr : Option StrDict)
    (e : Entity) (c g : String) (gm : GroupMap) (entry : UmlsEntry)
    (htext : e.text = [])
    (hc : entityCui corr e = some c)
    (hg : resolveGroup cat sem cg e.type c = g)
    (hgu : g ≠ "Unknown")
    (hgm : List.lookup g umls = some gm)
    (hent : List.lookup c gm = some entry) :
    ∃ pre, processEntity allText umls cat sem cg corr e = some pre ∧
      pre.mention = [] ∧
      ∀ docId k rest,
        transformEntitiesAux allText docId umls cat sem cg corr k (e :: rest) =
          mkMention docId k pre ::
            transformEntitiesAux allText docId umls cat sem cg corr (k + 1)
              rest := by
  have hsome : processEntity allText umls cat sem cg corr e =
      some { mention := pyStrip (joinSpace e.text),
             context_left := pyStrip (allText.take (startIndex e.offsets)),
             context_right := pyStrip (allText.drop (endIndex e.offsets)),
             group := g, cui := c,
             description := entry.description, title := entry.title } := by
    rw [processEntity, hc]
    simp only [hg, if_neg hgu, hgm, hent]
  refine ⟨_, hsome, ?_, ?_⟩
  · rw [htext]
    rfl
  · intro docId k rest
    rw [transformEntitiesAux, hsome]

/-- Witness for C10 at the fixture entity with no text fragments. -/
theorem c10_witness :
    eEmptyText.text = [] ∧ entityCui none eEmptyText = some "C2" ∧
    resolveGroup catEx semEx cgEx eEmptyText.type "C2" = "Disease" ∧
    ("Disease" : String) ≠ "Unknown" ∧
    List.lookup "Disease" umlsEx = some diseaseGm ∧
    List.lookup "C2" diseaseGm = some entryCold ∧
    ∃ pre, processEntity ['a'] umlsEx catEx semEx cgEx none eEmptyText =
        some pre ∧
      pre.mention = [] ∧
      ∀ docId k rest,
        transformEntitiesAux ['a'] docId umlsEx catEx semEx cgEx none k
          (eEmptyText :: rest) =
          mkMention docId k pre ::
            transformEntitiesAux ['a'] docId umlsEx catEx semEx cgEx none
              (k + 1) rest :=
  ⟨by decide, by decide, by decide, by decide, by decide, by decide,
    c10_empty_text_emitted ['a'] umlsEx catEx semEx cgEx none eEmptyText "C2"
      "Disease" diseaseGm entryCold (by decide) (by decide) (by decide)
      (by decide) (by decide) (by decide)⟩

end ArboEL
